import Mathlib

/-!
Verification of the trace-session lifecycle of `ltt-tracer.c` (LTTng kernel
tracer core).  The registry state (pending/setup list, active list, the
process-wide active-session counter and "tracing active" flag) and the
lifecycle operations (`_ltt_trace_setup`, `ltt_trace_set_type`, the
per-channel setters, `ltt_trace_alloc`, `ltt_trace_start/stop`,
`ltt_trace_destroy`) are embedded as pure functions on an explicit state,
and the claimed properties are proved or refuted about those functions.
-/

namespace LttTracer

/-! ## Error codes (errno-base.h values; the C functions return their negations) -/

def EPERM : Int := 1
def ENOENT : Int := 2
def ENOMEM : Int := 12
def EBUSY : Int := 16
def EEXIST : Int := 17
def ENODEV : Int := 19
def EINVAL : Int := 22

/-! ## Channel geometry normalization: `prepare_chan_size_num`

`subbuf_size` and `n_subbufs` are C `unsigned int`s; they are embedded as
`Nat` values below `2^32`, with the one overflowing store reduced `% 2^32`. -/

/-- PAGE_SIZE of the reference configuration (4 KiB pages). -/
def PAGE_SIZE : Nat := 4096

/-- Iteration worker for `fls`: halve until zero, counting the bits.
The fuel argument (32 at the top call) bounds the 32-bit word width. -/
def flsAux : Nat → Nat → Nat
  | 0, _ => 0
  | fuel + 1, x => if x = 0 then 0 else flsAux fuel (x / 2) + 1

/-- Linux `fls`: one plus the index of the most significant set bit of a
32-bit word, 0 when the argument is 0. -/
def fls (x : Nat) : Nat := flsAux 32 x

/-- Linux `get_count_order` (bitops.h): `fls(count) - 1`, incremented when
`count` is not a power of two.  The result is a C `int`: it is `-1` for
`count = 0` (in C, `0 - 1` wraps to an all-ones mask and `0 & mask = 0`,
so the increment is not taken; `Nat` saturating subtraction gives the same
branch). -/
def get_count_order (count : Nat) : Int :=
  let order : Int := (fls count : Int) - 1
  if count &&& (count - 1) ≠ 0 then order + 1 else order

/-- `1 << order` stored into a 32-bit unsigned variable, embedded as
`2 ^ order` reduced `% 2^32`.  A negative `order` (only reachable from
`count = 0`, undefined behaviour in the C) is modelled as 0. -/
def shl1_u32 (order : Int) : Nat :=
  if 0 ≤ order then 2 ^ order.toNat % 2 ^ 32 else 0

/-- `prepare_chan_size_num`: clamp the sub-buffer size up to a page, then
round both the size and the count up to the next power of two.  The C
function ends with `WARN_ON(hweight32(*subbuf_size) != 1)` and
`WARN_ON(hweight32(*n_subbufs) != 1)`, asserting both results are powers
of two. -/
def prepare_chan_size_num (subbuf_size n_subbufs : Nat) : Nat × Nat :=
  let sz := max subbuf_size PAGE_SIZE
  (shl1_u32 (get_count_order sz), shl1_u32 (get_count_order n_subbufs))

example : prepare_chan_size_num 0 0 = (4096, 0) := by decide
example : prepare_chan_size_num 4096 4 = (4096, 4) := by decide
example : prepare_chan_size_num 5000 3 = (8192, 4) := by decide
example : prepare_chan_size_num 2147483649 4 = (0, 4) := by decide

/-! ## Data model -/

/-- Per-channel settings of a trace (`struct ltt_chan_setting`): sub-buffer
size and count, overwrite-on-full flag (a C `unsigned int`, 0 = off), and
the two timer intervals. -/
structure ChannelSetting where
  sb_size : Nat
  n_sb : Nat
  overwrite : Nat
  switch_timer_interval : Nat
  read_timer_interval : Nat
deriving DecidableEq

/-- The all-zero setting produced by the `kzalloc` of the settings array. -/
def zeroSetting : ChannelSetting := ⟨0, 0, 0, 0, 0⟩

/-- One trace session (`struct ltt_trace`).  `transport` holds the name of
the assigned transport (`NULL` is `none`); `kref` is the reference count
(`kzalloc` leaves it 0, `kref_init` sets it 1); `channels` holds the
handles returned by `ltt_create_channel` (`none` embeds a `NULL` handle). -/
structure LttTrace where
  trace_name : String
  settings : List ChannelSetting
  transport : Option String
  active : Bool
  kref : Nat
  freq_scale : Nat
  start_freq : Nat
  start_tsc : Nat
  start_time : Nat
  channels : List (Option Nat)
deriving DecidableEq

/-- The external collaborators of `ltt-tracer.c`, fixed for a run:
the channel registry of `ltt-channels.c` (the ordered channel names and
the per-channel default geometry of the `chan_infos` table keyed through
`get_channel_type_from_name`; the numeric defaults themselves are header
constants), the registered transports, the module-pinning outcomes
(`try_module_get`), the directory and channel-buffer collaborators, and
the trace-clock readings. -/
structure Env where
  chans : List String
  def_sb_size : String → Nat
  def_n_sb : String → Nat
  transports : List String
  transportPinnable : String → Bool
  create_dirs_err : Int
  create_channel : String → Nat → Nat → Option Nat
  freq_scale : Nat
  clock_freq : Nat
  clock_tsc : Nat
  clock_time : Nat
  filterOwner : Bool
  filterAlive : Bool

/-- The global registry state: the pending (`ltt_traces.setup_head`) and
active (`ltt_traces.head`) lists, both most-recent-first, the unsynchronized
`num_active_traces` counter, the process-wide kernel trace flag
(`set/clear_kernel_trace_flag_all_tasks`), and the reference count held on
the run-filter module (`try_module_get`/`module_put` pairs from
start/stop). -/
structure TracesState where
  setup_head : List LttTrace
  head : List LttTrace
  num_active_traces : Nat
  traceFlag : Bool
  filterPins : Nat
deriving DecidableEq

/-- The state at module load: both lists empty, counter 0, flag down. -/
def initState : TracesState := ⟨[], [], 0, false, 0⟩

/-! ## List workers mirroring the C list scans

Names are compared with plain string equality; the C compares with
`strncmp(..., NAME_MAX)`, identical for names below the kernel's
`NAME_MAX` bound that every caller guarantees. -/

/-- Linear scan for the first trace of a given name
(`_ltt_trace_find` / `_ltt_trace_find_setup` body). -/
def findTrace (name : String) : List LttTrace → Option LttTrace
  | [] => none
  | t :: l => if t.trace_name = name then some t else findTrace name l

/-- In-place mutation of the first trace of a given name, as done through
the pointer returned by the find. -/
def updateFirst (name : String) (f : LttTrace → LttTrace) :
    List LttTrace → List LttTrace
  | [] => []
  | t :: l => if t.trace_name = name then f t :: l
              else t :: updateFirst name f l

/-- `list_del` of the first trace of a given name. -/
def removeFirst (name : String) : List LttTrace → List LttTrace
  | [] => []
  | t :: l => if t.trace_name = name then l else t :: removeFirst name l

/-- Modify the element at an index, leaving the list unchanged when the
index is out of bounds. -/
def modifyAt {α : Type} (f : α → α) : List α → Nat → List α
  | [], _ => []
  | a :: l, 0 => f a :: l
  | a :: l, n + 1 => a :: modifyAt f l n

/-- Modelled from the spec: `ltt_channels_get_index_from_name` of
`ltt-channels.c` (not part of this repository): linear scan of the
registered channel names, first exact match, not-found otherwise. -/
def chanIndexAux (name : String) : List String → Option Nat
  | [] => none
  | c :: l => if c = name then some 0 else (chanIndexAux name l).map (· + 1)

/-- Channel-name to settings-array index resolution against the registry. -/
def chanIndex (env : Env) (name : String) : Option Nat :=
  chanIndexAux name env.chans

/-- `_ltt_trace_find` over the active collection. -/
def trace_find (st : TracesState) (name : String) : Option LttTrace :=
  findTrace name st.head

/-- `_ltt_trace_find_setup` over the pending collection. -/
def trace_find_setup (st : TracesState) (name : String) : Option LttTrace :=
  findTrace name st.setup_head

/-! ## Lifecycle operations

Each operation is the body of the corresponding C function between
`ltt_lock_traces()` and `ltt_unlock_traces()`, returning the C result and
the successor registry state.  `kzalloc`/`kmalloc` are embedded as always
succeeding (`-ENOMEM` exits are environment failures outside the claims). -/

/-- Default per-channel settings of a fresh trace: `kzalloc` zeroes the
settings array, then `_ltt_trace_setup` installs the `chan_infos` default
geometry for every channel (the overwrite flag and timers stay 0). -/
def chanDefault (env : Env) (cname : String) : ChannelSetting :=
  { zeroSetting with
      sb_size := env.def_sb_size cname
      n_sb := env.def_n_sb cname }

/-- The trace record built by `_ltt_trace_setup` before linking: name
copied, settings array defaulted, and the metadata channel's overwrite
flag explicitly forced to 0 (a second write of the already-zero flag; the
`metadata_index < 0` case is only `WARN_ON`-ed in the C and is embedded as
skipping the write). -/
def newTrace (env : Env) (name : String) : LttTrace :=
  let settings0 := env.chans.map (chanDefault env)
  let settings1 :=
    match chanIndex env "metadata" with
    | some m => modifyAt (fun c => { c with overwrite := 0 }) settings0 m
    | none => settings0
  { trace_name := name
    settings := settings1
    transport := none
    active := false
    kref := 0
    freq_scale := 0
    start_freq := 0
    start_tsc := 0
    start_time := 0
    channels := [] }

/-- `_ltt_trace_setup`: refuse a name already present in the pending or
the active collection with `-EEXIST`, otherwise build the fresh record and
`list_add` it at the head of the pending collection. -/
def trace_setup (env : Env) (name : String) (st : TracesState) :
    Int × TracesState :=
  if (trace_find_setup st name).isSome then (-EEXIST, st)
  else if (trace_find st name).isSome then (-EEXIST, st)
  else (0, { st with setup_head := newTrace env name :: st.setup_head })

/-- `ltt_trace_set_type`: pending session required (`-ENOENT`), transport
resolved by linear scan of the registered transports (`-EINVAL` when
absent), then the transport pointer is assigned unconditionally. -/
def trace_set_type (env : Env) (name ttype : String) (st : TracesState) :
    Int × TracesState :=
  match trace_find_setup st name with
  | none => (-ENOENT, st)
  | some _ =>
    match env.transports.find? (fun tr => tr = ttype) with
    | none => (-EINVAL, st)
    | some tr =>
      let f := fun t => { t with transport := some tr }
      (0, { st with setup_head := updateFirst name f st.setup_head })

/-- `ltt_trace_set_channel_subbufsize`: pending session and known channel
required (`-ENOENT`), then the size is stored unchecked. -/
def trace_set_channel_subbufsize (env : Env) (name chan : String)
    (size : Nat) (st : TracesState) : Int × TracesState :=
  match trace_find_setup st name with
  | none => (-ENOENT, st)
  | some _ =>
    match chanIndex env chan with
    | none => (-ENOENT, st)
    | some i =>
      let f := fun t =>
        { t with settings := modifyAt (fun c => { c with sb_size := size }) t.settings i }
      (0, { st with setup_head := updateFirst name f st.setup_head })

/-- `ltt_trace_set_channel_subbufcount`: same shape for the count. -/
def trace_set_channel_subbufcount (env : Env) (name chan : String)
    (cnt : Nat) (st : TracesState) : Int × TracesState :=
  match trace_find_setup st name with
  | none => (-ENOENT, st)
  | some _ =>
    match chanIndex env chan with
    | none => (-ENOENT, st)
    | some i =>
      let f := fun t =>
        { t with settings := modifyAt (fun c => { c with n_sb := cnt }) t.settings i }
      (0, { st with setup_head := updateFirst name f st.setup_head })

/-- `ltt_trace_set_channel_switch_timer`; the store itself is
`ltt_channels_trace_set_timer` of `ltt-channels.c`, modelled from the
spec as writing the switch-timer interval of the addressed setting. -/
def trace_set_channel_switch_timer (env : Env) (name chan : String)
    (interval : Nat) (st : TracesState) : Int × TracesState :=
  match trace_find_setup st name with
  | none => (-ENOENT, st)
  | some _ =>
    match chanIndex env chan with
    | none => (-ENOENT, st)
    | some i =>
      let g := fun c => { c with switch_timer_interval := interval }
      let f := fun t => { t with settings := modifyAt g t.settings i }
      (0, { st with setup_head := updateFirst name f st.setup_head })

/-- `ltt_trace_set_channel_overwrite`: pending session required; a nonzero
overwrite request on the `"metadata"` channel is refused with `-EINVAL`
before the index lookup; unknown channels give `-ENOENT`; otherwise the
flag is stored. -/
def trace_set_channel_overwrite (env : Env) (name chan : String)
    (overwrite : Nat) (st : TracesState) : Int × TracesState :=
  match trace_find_setup st name with
  | none => (-ENOENT, st)
  | some _ =>
    if overwrite ≠ 0 ∧ chan = "metadata" then (-EINVAL, st)
    else
      match chanIndex env chan with
      | none => (-ENOENT, st)
      | some i =>
        let g := fun c => { c with overwrite := overwrite }
        let f := fun t => { t with settings := modifyAt g t.settings i }
        (0, { st with setup_head := updateFirst name f st.setup_head })

/-- The unconditional field writes `ltt_trace_alloc` performs on the found
trace before any validation: `kref_init`, `trace->active = 0`,
`get_trace_clock()` and the `freq_scale` latch. -/
def allocTouch (env : Env) (t : LttTrace) : LttTrace :=
  { t with kref := 1, active := false, freq_scale := env.freq_scale }

/-- The channel handle array built by the allocation loop: for each channel
index the normalized geometry is passed to `ltt_create_channel` and the
returned handle is stored.  The loop's failure test reads the stale `err`
of `create_dirs` (which is 0 here) instead of the `ltt_create_channel`
result, so the loop never takes its error exit and every handle, `NULL`
included, is stored. -/
def allocChannels (env : Env) (t : LttTrace) : List (Option Nat) :=
  (List.range t.settings.length).map (fun i =>
    let s := t.settings.getD i zeroSetting
    let g := prepare_chan_size_num s.sb_size s.n_sb
    env.create_channel (env.chans.getD i "") g.1 g.2)

/-- The registry state after the `allocTouch` writes landed in the still
pending trace (every early exit of `ltt_trace_alloc` leaves this state). -/
def allocTouchState (env : Env) (name : String) (st : TracesState) :
    TracesState :=
  { st with setup_head := updateFirst name (fun t => allocTouch env t) st.setup_head }

/-- The fully allocated trace record: the `allocTouch` writes, the start
timestamps latched inside the interrupt-disabled window, and the channel
handle array of the creation loop. -/
def allocDone (env : Env) (t0 : LttTrace) : LttTrace :=
  let t2 := { allocTouch env t0 with
                start_freq := env.clock_freq
                start_tsc := env.clock_tsc
                start_time := env.clock_time }
  { t2 with channels := allocChannels env t2 }

/-- `ltt_trace_alloc`: find the pending session (`-ENOENT`), perform the
unconditional `allocTouch` writes, then validate: transport set
(`-EINVAL`; the check reads the transport field, which `allocTouch` does
not change, so it is tested on the found trace), transport module
pinnable (`-ENODEV`), output directories created (propagated error);
latch the start timestamps, run the channel creation loop, and move the
session from the pending list to the head of the active list, raising the
kernel trace flag when the active list was empty. -/
def trace_alloc (env : Env) (name : String) (st : TracesState) :
    Int × TracesState :=
  match trace_find_setup st name with
  | none => (-ENOENT, st)
  | some t0 =>
    match t0.transport with
    | none => (-EINVAL, allocTouchState env name st)
    | some tr =>
      if ¬ env.transportPinnable tr then (-ENODEV, allocTouchState env name st)
      else if env.create_dirs_err ≠ 0 then
        (env.create_dirs_err, allocTouchState env name st)
      else
        (0, { st with
                setup_head := removeFirst name st.setup_head
                head := allocDone env t0 :: st.head
                traceFlag := if st.head.isEmpty then true else st.traceFlag })

/-- `_ltt_trace_destroy` + `__ltt_trace_destroy` + the pending branch of
`ltt_trace_destroy`: an active-collection session still capturing refuses
with `-EBUSY`; otherwise it is unlinked, the kernel trace flag is cleared
when the active list became empty, and the record is torn down.  A
pending session is unlinked and freed directly.  An unknown name gives
`-ENOENT`. -/
def trace_destroy (name : String) (st : TracesState) : Int × TracesState :=
  match trace_find st name with
  | some t =>
    if t.active then (-EBUSY, st)
    else
      let head' := removeFirst name st.head
      (0, { st with
              head := head'
              traceFlag := if head'.isEmpty then false else st.traceFlag })
  | none =>
    match trace_find_setup st name with
    | some _ => (0, { st with setup_head := removeFirst name st.setup_head })
    | none => (-ENOENT, st)

/-- `_ltt_trace_start` behind the `_ltt_trace_find` of `ltt_trace_start`:
unknown name gives `-ENOENT`; an already-active trace is only reported by
`printk` and falls through; `try_module_get` on the run-filter owner
(vacuously successful when no owner is registered) gives `-ENODEV` when it
fails; then the active flag is set and the counter incremented —
unconditionally, also when the trace was already active. -/
def trace_start (env : Env) (name : String) (st : TracesState) :
    Int × TracesState :=
  match trace_find st name with
  | none => (-ENOENT, st)
  | some _ =>
    if env.filterOwner ∧ ¬ env.filterAlive then (-ENODEV, st)
    else
      (0, { st with
              head := updateFirst name (fun t => { t with active := true }) st.head
              num_active_traces := st.num_active_traces + 1
              filterPins := st.filterPins + (if env.filterOwner then 1 else 0) })

/-- `_ltt_trace_stop` behind the `_ltt_trace_find` of `ltt_trace_stop`:
unknown name gives `-ENOENT`; a capturing trace has its flag cleared and
the counter decremented; the run-filter pin is dropped in every found
case; the result is 0. -/
def trace_stop (env : Env) (name : String) (st : TracesState) :
    Int × TracesState :=
  match trace_find st name with
  | none => (-ENOENT, st)
  | some t =>
    let st' :=
      if t.active then
        { st with
            head := updateFirst name (fun u => { u with active := false }) st.head
            num_active_traces := st.num_active_traces - 1 }
      else st
    (0, { st' with filterPins := st'.filterPins - (if env.filterOwner then 1 else 0) })

/-! ## Operation alphabet and reachability -/

/-- One control-surface call of the in-kernel API. -/
inductive Op where
  | setup (name : String)
  | setType (name ttype : String)
  | setSubbufSize (name chan : String) (v : Nat)
  | setSubbufCount (name chan : String) (v : Nat)
  | setSwitchTimer (name chan : String) (v : Nat)
  | setOverwrite (name chan : String) (v : Nat)
  | alloc (name : String)
  | start (name : String)
  | stop (name : String)
  | destroy (name : String)

/-- Dispatch one call. -/
def applyOp (env : Env) (op : Op) (st : TracesState) : Int × TracesState :=
  match op with
  | .setup n => trace_setup env n st
  | .setType n ty => trace_set_type env n ty st
  | .setSubbufSize n c v => trace_set_channel_subbufsize env n c v st
  | .setSubbufCount n c v => trace_set_channel_subbufcount env n c v st
  | .setSwitchTimer n c v => trace_set_channel_switch_timer env n c v st
  | .setOverwrite n c v => trace_set_channel_overwrite env n c v st
  | .alloc n => trace_alloc env n st
  | .start n => trace_start env n st
  | .stop n => trace_stop env n st
  | .destroy n => trace_destroy n st

/-- The state after one call, the result discarded. -/
def runOp (env : Env) (op : Op) (st : TracesState) : TracesState :=
  (applyOp env op st).2

/-- The state after a sequence of calls. -/
def runOps (env : Env) (ops : List Op) (st : TracesState) : TracesState :=
  ops.foldl (fun s op => runOp env op s) st

/-- States reachable from module load by control-surface calls. -/
inductive Reachable (env : Env) : TracesState → Prop where
  | init : Reachable env initState
  | step (op : Op) {st : TracesState} :
      Reachable env st → Reachable env (runOp env op st)

/-! ## A concrete collaborator environment for ground instances -/

/-- A small concrete environment: two registered channels, two transports,
everything pinnable, directory creation and channel creation succeeding,
a trace clock with scale factor 7, a live run-filter owner. -/
def envW : Env where
  chans := ["metadata", "kernel"]
  def_sb_size := fun _ => 4096
  def_n_sb := fun _ => 4
  transports := ["relay", "net"]
  transportPinnable := fun _ => true
  create_dirs_err := 0
  create_channel := fun _ _ _ => some 1
  freq_scale := 7
  clock_freq := 1000
  clock_tsc := 123
  clock_time := 456
  filterOwner := true
  filterAlive := true

/-- `envW` with a channel-buffer engine that fails every creation. -/
def envChanFail : Env :=
  { envW with create_channel := fun _ _ _ => none }

/-- State with the pending session `"t1"`, no transport yet. -/
def stPend : TracesState := runOp envW (.setup "t1") initState

/-- `stPend` with transport `"relay"` assigned. -/
def stTyped : TracesState := runOp envW (.setType "t1" "relay") stPend

/-- `stTyped` allocated: `"t1"` is in the active collection, capture off. -/
def stAlloc : TracesState := runOp envW (.alloc "t1") stTyped

/-- `stAlloc` started: `"t1"` capturing. -/
def stStarted : TracesState := runOp envW (.start "t1") stAlloc

/-- Pending session `"t1"` with transport `"relay"` assigned, built
against the failing channel-buffer engine. -/
def stChanFail : TracesState :=
  runOp envChanFail (.setType "t1" "relay")
    (runOp envChanFail (.setup "t1") initState)

example : (trace_setup envW "t1" stPend).1 = -EEXIST := by decide
example : (trace_find_setup stTyped "t1").map (fun t => t.transport) =
    some (some "relay") := by decide
example : stAlloc.head.map (fun t => t.trace_name) = ["t1"] := by decide
example : stAlloc.traceFlag = true := by decide
example : stStarted.num_active_traces = 1 := by decide
example : (trace_find stStarted "t1").map (fun t => t.active) = some true := by decide

/-! ## Helper lemmas about the list workers -/

/-- The names of a trace list, in order. -/
def names (l : List LttTrace) : List String := l.map (fun t => t.trace_name)

theorem names_nil : names [] = [] := rfl

theorem names_cons (t : LttTrace) (l : List LttTrace) :
    names (t :: l) = t.trace_name :: names l := rfl

theorem findTrace_eq_none_iff {name : String} : ∀ {l : List LttTrace},
    findTrace name l = none ↔ name ∉ names l
  | [] => by simp [findTrace, names]
  | t :: l => by
    rw [findTrace, names_cons]
    by_cases h : t.trace_name = name
    · simp [h]
    · simp only [if_neg h, List.mem_cons]
      rw [findTrace_eq_none_iff (l := l)]
      constructor
      · intro hn hc
        rcases hc with hc | hc
        · exact h hc.symm
        · exact hn hc
      · intro hn hc; exact hn (Or.inr hc)

theorem findTrace_some_name {name : String} : ∀ {l : List LttTrace} {t : LttTrace},
    findTrace name l = some t → t.trace_name = name
  | [], t, h => by simp [findTrace] at h
  | a :: l, t, h => by
    rw [findTrace] at h
    by_cases ha : a.trace_name = name
    · rw [if_pos ha] at h; cases h; exact ha
    · rw [if_neg ha] at h; exact findTrace_some_name h

theorem findTrace_some_mem {name : String} : ∀ {l : List LttTrace} {t : LttTrace},
    findTrace name l = some t → t ∈ l
  | [], t, h => by simp [findTrace] at h
  | a :: l, t, h => by
    rw [findTrace] at h
    by_cases ha : a.trace_name = name
    · rw [if_pos ha] at h; cases h; exact List.mem_cons_self _ _
    · rw [if_neg ha] at h; exact List.mem_cons_of_mem _ (findTrace_some_mem h)

theorem findTrace_isSome_of_mem {name : String} {l : List LttTrace}
    (h : name ∈ names l) : (findTrace name l).isSome := by
  cases hf : findTrace name l with
  | none => exact absurd h (findTrace_eq_none_iff.mp hf)
  | some t => rfl

theorem names_updateFirst {name : String} {f : LttTrace → LttTrace}
    (hf : ∀ t, (f t).trace_name = t.trace_name) : ∀ {l : List LttTrace},
    names (updateFirst name f l) = names l
  | [] => rfl
  | t :: l => by
    rw [updateFirst]
    by_cases h : t.trace_name = name
    · rw [if_pos h, names_cons, names_cons, hf]
    · rw [if_neg h, names_cons, names_cons, names_updateFirst hf (l := l)]

theorem mem_updateFirst {name : String} {f : LttTrace → LttTrace} :
    ∀ {l : List LttTrace} {t' : LttTrace},
    t' ∈ updateFirst name f l → t' ∈ l ∨ ∃ t, t ∈ l ∧ t' = f t
  | [], t', h => by simp [updateFirst] at h
  | t :: l, t', h => by
    rw [updateFirst] at h
    by_cases ht : t.trace_name = name
    · rw [if_pos ht] at h
      rcases List.mem_cons.mp h with h | h
      · exact Or.inr ⟨t, List.mem_cons_self _ _, h⟩
      · exact Or.inl (List.mem_cons_of_mem _ h)
    · rw [if_neg ht] at h
      rcases List.mem_cons.mp h with h | h
      · exact Or.inl (h ▸ List.mem_cons_self _ _)
      · rcases mem_updateFirst h with h | ⟨u, hu, hu'⟩
        · exact Or.inl (List.mem_cons_of_mem _ h)
        · exact Or.inr ⟨u, List.mem_cons_of_mem _ hu, hu'⟩

theorem findTrace_updateFirst {name : String} {f : LttTrace → LttTrace}
    (hf : ∀ t, (f t).trace_name = t.trace_name) : ∀ {l : List LttTrace},
    findTrace name (updateFirst name f l) = (findTrace name l).map f
  | [] => rfl
  | t :: l => by
    by_cases h : t.trace_name = name
    · have hft : (f t).trace_name = name := by rw [hf]; exact h
      rw [updateFirst, if_pos h, findTrace, if_pos hft, findTrace, if_pos h,
        Option.map_some']
    · rw [updateFirst, if_neg h, findTrace, if_neg h,
        findTrace_updateFirst hf (l := l), findTrace, if_neg h]

theorem mem_removeFirst {name : String} : ∀ {l : List LttTrace} {t : LttTrace},
    t ∈ removeFirst name l → t ∈ l
  | [], t, h => by simp [removeFirst] at h
  | a :: l, t, h => by
    rw [removeFirst] at h
    by_cases ha : a.trace_name = name
    · rw [if_pos ha] at h; exact List.mem_cons_of_mem _ h
    · rw [if_neg ha] at h
      rcases List.mem_cons.mp h with h | h
      · exact h ▸ List.mem_cons_self _ _
      · exact List.mem_cons_of_mem _ (mem_removeFirst h)

theorem names_removeFirst_sublist {name : String} : ∀ {l : List LttTrace},
    List.Sublist (names (removeFirst name l)) (names l)
  | [] => List.Sublist.refl _
  | t :: l => by
    rw [removeFirst]
    by_cases h : t.trace_name = name
    · rw [if_pos h, names_cons]
      exact List.sublist_cons_of_sublist _ (List.Sublist.refl _)
    · rw [if_neg h, names_cons, names_cons]
      exact List.Sublist.cons₂ _ (names_removeFirst_sublist (l := l))

theorem names_removeFirst_perm {name : String} : ∀ {l : List LttTrace},
    name ∈ names l → List.Perm (names l) (name :: names (removeFirst name l))
  | [], h => by simp [names] at h
  | t :: l, h => by
    rw [removeFirst]
    by_cases ht : t.trace_name = name
    · rw [if_pos ht, names_cons, ht]
    · rw [if_neg ht, names_cons, names_cons]
      have hmem : name ∈ names l := by
        rcases List.mem_cons.mp (by rw [names_cons] at h; exact h) with h' | h'
        · exact absurd h'.symm ht
        · exact h'
      exact List.Perm.trans
        (List.Perm.cons _ (names_removeFirst_perm hmem))
        (List.Perm.swap _ _ _)

theorem mem_names_removeFirst_of_ne {x name : String} (hx : x ≠ name) :
    ∀ {l : List LttTrace}, x ∈ names l → x ∈ names (removeFirst name l)
  | [], h => by simp [names] at h
  | t :: l, h => by
    rw [removeFirst]
    rw [names_cons] at h
    by_cases ht : t.trace_name = name
    · rw [if_pos ht]
      rcases List.mem_cons.mp h with h' | h'
      · exact absurd (h' ▸ ht) hx
      · exact h'
    · rw [if_neg ht, names_cons]
      rcases List.mem_cons.mp h with h' | h'
      · exact h' ▸ List.mem_cons_self _ _
      · exact List.mem_cons_of_mem _ (mem_names_removeFirst_of_ne hx h')

theorem not_mem_names_removeFirst {name : String} : ∀ {l : List LttTrace},
    (names l).Nodup → name ∉ names (removeFirst name l)
  | [], _ => fun hc => by simp [removeFirst, names] at hc
  | t :: l, hnd => by
    rw [removeFirst]
    rw [names_cons] at hnd
    by_cases ht : t.trace_name = name
    · intro hc
      rw [if_pos ht] at hc
      exact (List.nodup_cons.mp hnd).1 (ht ▸ hc)
    · rw [if_neg ht, names_cons]
      intro hc
      rcases List.mem_cons.mp hc with h' | h'
      · exact ht h'.symm
      · exact not_mem_names_removeFirst (List.nodup_cons.mp hnd).2 h'

theorem removeFirst_nil_of_nil {name : String} {l : List LttTrace}
    (h : l = []) : removeFirst name l = [] := by subst h; rfl

theorem chanIndexAux_get {a : String} : ∀ {l : List String} {i : Nat},
    chanIndexAux a l = some i → l.get? i = some a
  | [], i, h => by simp [chanIndexAux] at h
  | c :: l, i, h => by
    rw [chanIndexAux] at h
    by_cases hc : c = a
    · rw [if_pos hc] at h
      cases h
      simp [hc]
    · rw [if_neg hc] at h
      cases hi : chanIndexAux a l with
      | none => rw [hi] at h; simp at h
      | some j =>
        rw [hi] at h
        simp only [Option.map_some'] at h
        cases h
        simpa using chanIndexAux_get hi

theorem chanIndexAux_inj {a b : String} {l : List String} {i : Nat}
    (ha : chanIndexAux a l = some i) (hb : chanIndexAux b l = some i) :
    a = b := by
  have h1 := chanIndexAux_get ha
  have h2 := chanIndexAux_get hb
  rw [h1] at h2
  exact Option.some_injective _ h2

theorem getD_modifyAt_ne {α : Type} {f : α → α} {z : α} :
    ∀ {l : List α} {i m : Nat}, i ≠ m →
    (modifyAt f l i).getD m z = l.getD m z
  | [], i, m, _ => by rw [modifyAt]
  | a :: l, 0, 0, h => absurd rfl h
  | a :: l, 0, m + 1, _ => by rw [modifyAt]; rfl
  | a :: l, i + 1, 0, _ => by rw [modifyAt]; rfl
  | a :: l, i + 1, m + 1, h => by
    rw [modifyAt]
    have : i ≠ m := fun hc => h (by rw [hc])
    show (modifyAt f l i).getD m z = l.getD m z
    exact getD_modifyAt_ne this

theorem overwrite_getD_modifyAt {f : ChannelSetting → ChannelSetting}
    (hf : ∀ c, (f c).overwrite = c.overwrite) :
    ∀ {l : List ChannelSetting} {i m : Nat},
    ((modifyAt f l i).getD m zeroSetting).overwrite =
      (l.getD m zeroSetting).overwrite
  | [], i, m => by rw [modifyAt]
  | a :: l, 0, 0 => by rw [modifyAt]; exact hf a
  | a :: l, 0, m + 1 => by rw [modifyAt]; rfl
  | a :: l, i + 1, 0 => by rw [modifyAt]; rfl
  | a :: l, i + 1, m + 1 => by
    rw [modifyAt]
    show ((modifyAt f l i).getD m zeroSetting).overwrite =
      (l.getD m zeroSetting).overwrite
    exact overwrite_getD_modifyAt hf

theorem overwrite_getD_modifyAt_zero :
    ∀ {l : List ChannelSetting} {i m : Nat},
    (l.getD m zeroSetting).overwrite = 0 →
    ((modifyAt (fun c => { c with overwrite := 0 }) l i).getD m
      zeroSetting).overwrite = 0
  | [], i, m, h => by rw [modifyAt]; exact h
  | a :: l, 0, 0, _ => by rw [modifyAt]; rfl
  | a :: l, 0, m + 1, h => by rw [modifyAt]; exact h
  | a :: l, i + 1, 0, h => by rw [modifyAt]; exact h
  | a :: l, i + 1, m + 1, h => by
    rw [modifyAt]
    show ((modifyAt _ l i).getD m zeroSetting).overwrite = 0
    exact overwrite_getD_modifyAt_zero h

theorem overwrite_getD_of_all_zero :
    ∀ {l : List ChannelSetting} {m : Nat},
    (∀ c ∈ l, c.overwrite = 0) → (l.getD m zeroSetting).overwrite = 0
  | [], m, _ => by cases m <;> rfl
  | c :: l, 0, h => h c (List.mem_cons_self _ _)
  | c :: l, m + 1, h => by
    show (l.getD m zeroSetting).overwrite = 0
    exact overwrite_getD_of_all_zero (fun d hd => h d (List.mem_cons_of_mem _ hd))

theorem updateFirst_isEmpty {n : String} {f : LttTrace → LttTrace} :
    ∀ {l : List LttTrace}, (updateFirst n f l).isEmpty = l.isEmpty
  | [] => rfl
  | t :: l => by
    rw [updateFirst]
    by_cases h : t.trace_name = n
    · rw [if_pos h]; rfl
    · rw [if_neg h]; rfl

/-! ## Registry invariants

Three facts hold in every reachable registry state: all session names
across the two collections are distinct, the kernel trace flag is up
exactly when the active collection is non-empty, and the metadata
channel's overwrite flag of every session is 0. -/

/-- Name uniqueness across pending and active collections. -/
def NamesNodup (st : TracesState) : Prop :=
  (names st.setup_head ++ names st.head).Nodup

/-- The kernel trace flag mirrors non-emptiness of the active collection. -/
def FlagOk (st : TracesState) : Prop :=
  st.traceFlag = !st.head.isEmpty

/-- The metadata channel's overwrite flag of one trace is 0. -/
def metaOk (env : Env) (t : LttTrace) : Prop :=
  ∀ m, chanIndex env "metadata" = some m →
    (t.settings.getD m zeroSetting).overwrite = 0

/-- Every trace in either collection satisfies `metaOk`. -/
def MetaInv (env : Env) (st : TracesState) : Prop :=
  (∀ t ∈ st.setup_head, metaOk env t) ∧ (∀ t ∈ st.head, metaOk env t)

/-- The conjunction of the three registry invariants. -/
def Inv (env : Env) (st : TracesState) : Prop :=
  NamesNodup st ∧ FlagOk st ∧ MetaInv env st

theorem namesNodup_updateSetup {st : TracesState} {n : String}
    {f : LttTrace → LttTrace} (hf : ∀ t, (f t).trace_name = t.trace_name)
    (h : NamesNodup st) :
    NamesNodup { st with setup_head := updateFirst n f st.setup_head } := by
  unfold NamesNodup
  rw [names_updateFirst hf]
  exact h

theorem metaInv_updateSetup {env : Env} {st : TracesState} {n : String}
    {f : LttTrace → LttTrace} (hf : ∀ t, metaOk env t → metaOk env (f t))
    (h : MetaInv env st) :
    MetaInv env { st with setup_head := updateFirst n f st.setup_head } := by
  refine ⟨?_, h.2⟩
  intro t ht
  rcases mem_updateFirst ht with ht | ⟨u, hu, rfl⟩
  · exact h.1 t ht
  · exact hf u (h.1 u hu)

theorem metaOk_modify {env : Env} {t : LttTrace} {i : Nat}
    {g : ChannelSetting → ChannelSetting}
    (hg : ∀ c, (g c).overwrite = c.overwrite) (h : metaOk env t) :
    metaOk env { t with settings := modifyAt g t.settings i } := by
  intro m hm
  show ((modifyAt g t.settings i).getD m zeroSetting).overwrite = 0
  rw [overwrite_getD_modifyAt hg]
  exact h m hm

theorem metaOk_newTrace (env : Env) (n : String) : metaOk env (newTrace env n) := by
  intro m hm
  show (((newTrace env n).settings).getD m zeroSetting).overwrite = 0
  have hall : ∀ c ∈ env.chans.map (chanDefault env), c.overwrite = 0 := by
    intro c hc
    rcases List.mem_map.mp hc with ⟨x, _, rfl⟩
    rfl
  unfold newTrace
  cases hidx : chanIndex env "metadata" with
  | none => simp only [hidx]; exact overwrite_getD_of_all_zero hall
  | some j =>
    simp only [hidx]
    exact overwrite_getD_modifyAt_zero (overwrite_getD_of_all_zero hall)

theorem inv_setup (env : Env) (n : String) (st : TracesState)
    (h : Inv env st) : Inv env (trace_setup env n st).2 := by
  unfold trace_setup
  by_cases h1 : (trace_find_setup st n).isSome
  · rw [if_pos h1]; exact h
  · rw [if_neg h1]
    by_cases h2 : (trace_find st n).isSome
    · rw [if_pos h2]; exact h
    · rw [if_neg h2]
      have hn1 : n ∉ names st.setup_head :=
        findTrace_eq_none_iff.mp (Option.not_isSome_iff_eq_none.mp h1)
      have hn2 : n ∉ names st.head :=
        findTrace_eq_none_iff.mp (Option.not_isSome_iff_eq_none.mp h2)
      refine ⟨?_, h.2.1, ?_, h.2.2.2⟩
      · show ((names (newTrace env n :: st.setup_head)) ++ names st.head).Nodup
        rw [names_cons, List.cons_append]
        refine List.nodup_cons.mpr ⟨?_, h.1⟩
        intro hc
        rcases List.mem_append.mp hc with hc | hc
        · exact hn1 hc
        · exact hn2 hc
      · intro t ht
        rcases List.mem_cons.mp ht with ht | ht
        · exact ht ▸ metaOk_newTrace env n
        · exact h.2.2.1 t ht

theorem inv_setType (env : Env) (n ty : String) (st : TracesState)
    (h : Inv env st) : Inv env (trace_set_type env n ty st).2 := by
  unfold trace_set_type
  split
  · exact h
  · split
    · exact h
    · exact ⟨namesNodup_updateSetup (fun t => rfl) h.1, h.2.1,
        metaInv_updateSetup (fun t ht => ht) h.2.2⟩

theorem inv_setSubbufSize (env : Env) (n c : String) (v : Nat)
    (st : TracesState) (h : Inv env st) :
    Inv env (trace_set_channel_subbufsize env n c v st).2 := by
  unfold trace_set_channel_subbufsize
  split
  · exact h
  · split
    · exact h
    · exact ⟨namesNodup_updateSetup (fun t => rfl) h.1, h.2.1,
        metaInv_updateSetup (fun t ht => metaOk_modify (fun s => rfl) ht) h.2.2⟩

theorem inv_setSubbufCount (env : Env) (n c : String) (v : Nat)
    (st : TracesState) (h : Inv env st) :
    Inv env (trace_set_channel_subbufcount env n c v st).2 := by
  unfold trace_set_channel_subbufcount
  split
  · exact h
  · split
    · exact h
    · exact ⟨namesNodup_updateSetup (fun t => rfl) h.1, h.2.1,
        metaInv_updateSetup (fun t ht => metaOk_modify (fun s => rfl) ht) h.2.2⟩

theorem inv_setSwitchTimer (env : Env) (n c : String) (v : Nat)
    (st : TracesState) (h : Inv env st) :
    Inv env (trace_set_channel_switch_timer env n c v st).2 := by
  unfold trace_set_channel_switch_timer
  split
  · exact h
  · split
    · exact h
    · exact ⟨namesNodup_updateSetup (fun t => rfl) h.1, h.2.1,
        metaInv_updateSetup (fun t ht => metaOk_modify (fun s => rfl) ht) h.2.2⟩

theorem inv_setOverwrite (env : Env) (n c : String) (v : Nat)
    (st : TracesState) (h : Inv env st) :
    Inv env (trace_set_channel_overwrite env n c v st).2 := by
  unfold trace_set_channel_overwrite
  split
  · exact h
  · split
    · exact h
    · split
      · exact h
      · rename_i hguard xcs i hidx
        refine ⟨namesNodup_updateSetup (fun t => rfl) h.1, h.2.1,
          metaInv_updateSetup ?_ h.2.2⟩
        intro t ht m hm
        show ((modifyAt (fun s => { s with overwrite := v }) t.settings i).getD m
          zeroSetting).overwrite = 0
        by_cases hc : c = "metadata"
        · have hv : v = 0 := by
            by_contra hv
            exact hguard ⟨hv, hc⟩
          subst hv
          exact overwrite_getD_modifyAt_zero (ht m hm)
        · have hne : i ≠ m := by
            intro he
            subst he
            exact hc (chanIndexAux_inj hidx hm)
          rw [getD_modifyAt_ne hne]
          exact ht m hm

theorem nodup_move {S H : List LttTrace} {t3 : LttTrace} {n : String}
    (hname : t3.trace_name = n) (hin : n ∈ names S)
    (h : (names S ++ names H).Nodup) :
    (names (removeFirst n S) ++ names (t3 :: H)).Nodup := by
  rw [names_cons, hname]
  have hperm1 : List.Perm (names (removeFirst n S) ++ n :: names H)
      (n :: (names (removeFirst n S) ++ names H)) := List.perm_middle
  have hperm2 : List.Perm (names S ++ names H)
      (n :: (names (removeFirst n S) ++ names H)) :=
    List.Perm.append_right (names H) (names_removeFirst_perm hin)
  exact (hperm2.trans hperm1.symm).nodup h

theorem flag_raise {st : TracesState} (h : FlagOk st) :
    (if st.head.isEmpty then true else st.traceFlag) = true := by
  cases hhe : st.head.isEmpty with
  | false =>
    have h' := h
    rw [FlagOk, hhe] at h'
    simp [hhe, h']
  | true => simp [hhe]

theorem inv_allocTouchState (env : Env) (n : String) (st : TracesState)
    (h : Inv env st) : Inv env (allocTouchState env n st) :=
  ⟨namesNodup_updateSetup (fun _ => rfl) h.1, h.2.1,
    metaInv_updateSetup (fun _ ht => ht) h.2.2⟩

theorem inv_alloc (env : Env) (n : String) (st : TracesState)
    (h : Inv env st) : Inv env (trace_alloc env n st).2 := by
  unfold trace_alloc
  split
  · exact h
  · rename_i t0 hfind
    split
    · exact inv_allocTouchState env n st h
    · split
      · exact inv_allocTouchState env n st h
      · split
        · exact inv_allocTouchState env n st h
        · -- success branch: the session moves from the pending to the active list
          have hname0 : t0.trace_name = n := findTrace_some_name hfind
          have hname : (allocDone env t0).trace_name = n := hname0
          have hmem : t0 ∈ st.setup_head := findTrace_some_mem hfind
          have hin : n ∈ names st.setup_head :=
            hname0 ▸ List.mem_map_of_mem (fun t => t.trace_name) hmem
          refine ⟨nodup_move hname hin h.1, flag_raise h.2.1, ?_, ?_⟩
          · intro t ht
            exact h.2.2.1 t (mem_removeFirst ht)
          · intro t ht
            rcases List.mem_cons.mp ht with ht | ht
            · subst ht
              exact h.2.2.1 t0 hmem
            · exact h.2.2.2 t ht

theorem inv_destroy (env : Env) (n : String) (st : TracesState)
    (h : Inv env st) : Inv env (trace_destroy n st).2 := by
  unfold trace_destroy
  split
  · rename_i t hfind
    split
    · exact h
    · refine ⟨?_, ?_, h.2.2.1, ?_⟩
      · have hsub : List.Sublist
            (names st.setup_head ++ names (removeFirst n st.head))
            (names st.setup_head ++ names st.head) :=
          (List.append_sublist_append_left _).mpr names_removeFirst_sublist
        exact hsub.nodup h.1
      · show (if (removeFirst n st.head).isEmpty then false else st.traceFlag) =
          !(removeFirst n st.head).isEmpty
        cases hre : (removeFirst n st.head).isEmpty with
        | true => simp [hre]
        | false =>
          have hh : st.head.isEmpty = false := by
            cases hhd : st.head with
            | nil =>
              rw [hhd, removeFirst_nil_of_nil rfl] at hre
              simp at hre
            | cons a l => rfl
          have h' := h.2.1
          rw [FlagOk, hh] at h'
          simp [hre, h']
      · intro t' ht'
        exact h.2.2.2 t' (mem_removeFirst ht')
  · split
    · refine ⟨?_, h.2.1, ?_, h.2.2.2⟩
      · have hsub : List.Sublist
            (names (removeFirst n st.setup_head) ++ names st.head)
            (names st.setup_head ++ names st.head) :=
          List.Sublist.append_right names_removeFirst_sublist _
        exact hsub.nodup h.1
      · intro t' ht'
        exact h.2.2.1 t' (mem_removeFirst ht')
    · exact h

theorem inv_start (env : Env) (n : String) (st : TracesState)
    (h : Inv env st) : Inv env (trace_start env n st).2 := by
  unfold trace_start
  split
  · exact h
  · split
    · exact h
    · refine ⟨?_, ?_, h.2.2.1, ?_⟩
      · have : (names st.setup_head ++
            names (updateFirst n (fun t => { t with active := true })
              st.head)).Nodup := by
          rw [names_updateFirst (f := fun t => { t with active := true })
            (fun _ => rfl)]
          exact h.1
        exact this
      · have : st.traceFlag =
            !(updateFirst n (fun t => { t with active := true })
              st.head).isEmpty := by
          rw [updateFirst_isEmpty]
          exact h.2.1
        exact this
      · intro t ht
        rcases mem_updateFirst ht with ht | ⟨u, hu, rfl⟩
        · exact h.2.2.2 t ht
        · exact h.2.2.2 u hu

theorem inv_stop (env : Env) (n : String) (st : TracesState)
    (h : Inv env st) : Inv env (trace_stop env n st).2 := by
  unfold trace_stop
  split
  · exact h
  · split
    · refine ⟨?_, ?_, h.2.2.1, ?_⟩
      · have : (names st.setup_head ++
            names (updateFirst n (fun u => { u with active := false })
              st.head)).Nodup := by
          rw [names_updateFirst (f := fun u => { u with active := false })
            (fun _ => rfl)]
          exact h.1
        exact this
      · have : st.traceFlag =
            !(updateFirst n (fun u => { u with active := false })
              st.head).isEmpty := by
          rw [updateFirst_isEmpty]
          exact h.2.1
        exact this
      · intro t ht
        rcases mem_updateFirst ht with ht | ⟨u, hu, rfl⟩
        · exact h.2.2.2 t ht
        · exact h.2.2.2 u hu
    · exact h

theorem inv_runOp (env : Env) (op : Op) (st : TracesState)
    (h : Inv env st) : Inv env (runOp env op st) := by
  cases op with
  | setup n => exact inv_setup env n st h
  | setType n ty => exact inv_setType env n ty st h
  | setSubbufSize n c v => exact inv_setSubbufSize env n c v st h
  | setSubbufCount n c v => exact inv_setSubbufCount env n c v st h
  | setSwitchTimer n c v => exact inv_setSwitchTimer env n c v st h
  | setOverwrite n c v => exact inv_setOverwrite env n c v st h
  | alloc n => exact inv_alloc env n st h
  | start n => exact inv_start env n st h
  | stop n => exact inv_stop env n st h
  | destroy n => exact inv_destroy env n st h

theorem inv_init (env : Env) : Inv env initState :=
  ⟨List.nodup_nil, rfl,
    fun t ht => absurd ht (List.not_mem_nil t),
    fun t ht => absurd ht (List.not_mem_nil t)⟩

theorem inv_reachable {env : Env} {st : TracesState}
    (h : Reachable env st) : Inv env st := by
  induction h with
  | init => exact inv_init env
  | step op hr ih => exact inv_runOp env op _ ih

/-! ## Name presence is stable under every call except a destroy of the name -/

/-- The name occurs in one of the two collections. -/
def namePresent (st : TracesState) (name : String) : Prop :=
  name ∈ names st.setup_head ∨ name ∈ names st.head

instance (st : TracesState) (name : String) : Decidable (namePresent st name) :=
  inferInstanceAs
    (Decidable (name ∈ names st.setup_head ∨ name ∈ names st.head))

theorem present_updateSetup {st : TracesState} {n name : String}
    {f : LttTrace → LttTrace} (hf : ∀ t, (f t).trace_name = t.trace_name)
    (h : namePresent st name) :
    namePresent { st with setup_head := updateFirst n f st.setup_head } name := by
  unfold namePresent
  rw [names_updateFirst hf]
  exact h

theorem present_updateHead {st : TracesState} {n name : String}
    {f : LttTrace → LttTrace} (hf : ∀ t, (f t).trace_name = t.trace_name)
    (h : namePresent st name) :
    namePresent { st with head := updateFirst n f st.head } name := by
  unfold namePresent
  rw [names_updateFirst hf]
  exact h

theorem runOp_preserves_present (env : Env) (op : Op) (st : TracesState)
    (name : String) (hop : ∀ m, op = Op.destroy m → m ≠ name)
    (h : namePresent st name) : namePresent (runOp env op st) name := by
  cases op with
  | setup n =>
    show namePresent (trace_setup env n st).2 name
    unfold trace_setup
    by_cases h1 : (trace_find_setup st n).isSome
    · rw [if_pos h1]; exact h
    · rw [if_neg h1]
      by_cases h2 : (trace_find st n).isSome
      · rw [if_pos h2]; exact h
      · rw [if_neg h2]
        rcases h with h | h
        · exact Or.inl (List.mem_cons_of_mem _ h)
        · exact Or.inr h
  | setType n ty =>
    show namePresent (trace_set_type env n ty st).2 name
    unfold trace_set_type
    split
    · exact h
    · split
      · exact h
      · exact present_updateSetup (fun _ => rfl) h
  | setSubbufSize n c v =>
    show namePresent (trace_set_channel_subbufsize env n c v st).2 name
    unfold trace_set_channel_subbufsize
    split
    · exact h
    · split
      · exact h
      · exact present_updateSetup (fun _ => rfl) h
  | setSubbufCount n c v =>
    show namePresent (trace_set_channel_subbufcount env n c v st).2 name
    unfold trace_set_channel_subbufcount
    split
    · exact h
    · split
      · exact h
      · exact present_updateSetup (fun _ => rfl) h
  | setSwitchTimer n c v =>
    show namePresent (trace_set_channel_switch_timer env n c v st).2 name
    unfold trace_set_channel_switch_timer
    split
    · exact h
    · split
      · exact h
      · exact present_updateSetup (fun _ => rfl) h
  | setOverwrite n c v =>
    show namePresent (trace_set_channel_overwrite env n c v st).2 name
    unfold trace_set_channel_overwrite
    split
    · exact h
    · split
      · exact h
      · split
        · exact h
        · exact present_updateSetup (fun _ => rfl) h
  | alloc n =>
    show namePresent (trace_alloc env n st).2 name
    unfold trace_alloc
    split
    · exact h
    · rename_i t0 hfind
      split
      · exact present_updateSetup (fun _ => rfl) h
      · split
        · exact present_updateSetup (fun _ => rfl) h
        · split
          · exact present_updateSetup (fun _ => rfl) h
          · by_cases hn : name = n
            · refine Or.inr ?_
              rw [names_cons]
              have hname0 : t0.trace_name = n := findTrace_some_name hfind
              have : (allocDone env t0).trace_name = n := hname0
              rw [this, hn]
              exact List.mem_cons_self _ _
            · rcases h with h | h
              · exact Or.inl (mem_names_removeFirst_of_ne hn h)
              · refine Or.inr ?_
                rw [names_cons]
                exact List.mem_cons_of_mem _ h
  | start n =>
    show namePresent (trace_start env n st).2 name
    unfold trace_start
    split
    · exact h
    · split
      · exact h
      · exact present_updateHead (fun _ => rfl) h
  | stop n =>
    show namePresent (trace_stop env n st).2 name
    unfold trace_stop
    split
    · exact h
    · split
      · exact present_updateHead (n := n)
          (f := fun u => { u with active := false }) (fun _ => rfl) h
      · exact h
  | destroy n =>
    have hne : n ≠ name := hop n rfl
    have hne' : name ≠ n := fun hc => hne hc.symm
    show namePresent (trace_destroy n st).2 name
    unfold trace_destroy
    split
    · split
      · exact h
      · rcases h with h | h
        · exact Or.inl h
        · exact Or.inr (mem_names_removeFirst_of_ne hne' h)
    · split
      · rcases h with h | h
        · exact Or.inl (mem_names_removeFirst_of_ne hne' h)
        · exact Or.inr h
      · exact h

theorem runOps_preserves_present (env : Env) (name : String) :
    ∀ (ops : List Op) (st : TracesState),
    (∀ m, Op.destroy m ∈ ops → m ≠ name) → namePresent st name →
    namePresent (runOps env ops st) name
  | [], _, _, h => h
  | op :: ops, st, hops, h => by
    show namePresent (runOps env ops (runOp env op st)) name
    exact runOps_preserves_present env name ops _
      (fun m hm => hops m (List.mem_cons_of_mem _ hm))
      (runOp_preserves_present env op st name
        (fun m he => hops m (he ▸ List.mem_cons_self _ _)) h)

theorem trace_setup_of_present (env : Env) {st : TracesState} {name : String}
    (h : namePresent st name) : trace_setup env name st = (-EEXIST, st) := by
  unfold trace_setup
  rcases h with h | h
  · rw [if_pos (show (trace_find_setup st name).isSome
      from findTrace_isSome_of_mem h)]
  · by_cases h1 : (trace_find_setup st name).isSome
    · rw [if_pos h1]
    · rw [if_neg h1, if_pos (show (trace_find st name).isSome
        from findTrace_isSome_of_mem h)]

theorem trace_setup_of_absent (env : Env) {st : TracesState} {name : String}
    (h : ¬ namePresent st name) :
    trace_setup env name st =
      (0, { st with setup_head := newTrace env name :: st.setup_head }) := by
  unfold trace_setup
  have h1 : trace_find_setup st name = none :=
    findTrace_eq_none_iff.mpr (fun hc => h (Or.inl hc))
  have h2 : trace_find st name = none :=
    findTrace_eq_none_iff.mpr (fun hc => h (Or.inr hc))
  rw [h1, h2]
  exact rfl

/-! ## Claim theorems -/

/-- C1: creating a session whose name is already present in the pending or
the active collection fails with `-EEXIST` (NameInUse) and changes
nothing; creating an absent name succeeds and links the new session at the
head of the pending collection; and since every call other than a destroy
of that name preserves presence, in any sequence of same-name creates
without an intervening destroy exactly the first succeeds and every later
one fails with `-EEXIST`. -/
theorem trace_setup_name_in_use (env : Env) (st : TracesState) (name : String)
    (ops : List Op) (hops : ∀ m, Op.destroy m ∈ ops → m ≠ name) :
    (namePresent st name → trace_setup env name st = (-EEXIST, st)) ∧
    (¬ namePresent st name →
      trace_setup env name st =
        (0, { st with setup_head := newTrace env name :: st.setup_head }) ∧
      namePresent (trace_setup env name st).2 name) ∧
    (namePresent st name →
      trace_setup env name (runOps env ops st) =
        (-EEXIST, runOps env ops st)) := by
  refine ⟨fun h => trace_setup_of_present env h, fun h => ?_, fun h => ?_⟩
  · refine ⟨trace_setup_of_absent env h, ?_⟩
    rw [trace_setup_of_absent env h]
    refine Or.inl ?_
    rw [names_cons]
    exact List.mem_cons_self _ _
  · exact trace_setup_of_present env
      (runOps_preserves_present env name ops st hops h)

/-- C1 witness: with the concrete environment, creating `"t1"` into the
empty registry succeeds; creating it again while it is pending fails
`-EEXIST`; and creating it after it was configured and allocated (moved to
the active collection) still fails `-EEXIST`. -/
theorem trace_setup_name_in_use_case :
    (trace_setup envW "t1" initState).1 = 0 ∧
    trace_setup envW "t1" stPend = (-EEXIST, stPend) ∧
    trace_setup envW "t1"
        (runOps envW [Op.setType "t1" "relay", Op.alloc "t1"] stPend) =
      (-EEXIST, runOps envW [Op.setType "t1" "relay", Op.alloc "t1"] stPend) := by
  have h0 := trace_setup_name_in_use envW initState "t1" []
    (by intro m hm; simp at hm)
  have h1 := trace_setup_name_in_use envW stPend "t1"
    [Op.setType "t1" "relay", Op.alloc "t1"]
    (by intro m hm; simp [List.mem_cons] at hm)
  refine ⟨?_, h1.1 (by decide), h1.2.2 (by decide)⟩
  rw [(h0.2.1 (by decide)).1]

/-- C2 (code-bug evaluation): a pending session with transport `"relay"`
set, against a channel-buffer engine that fails every creation
(`ltt_create_channel` returns `NULL` for both channels).  `ltt_trace_alloc`
nevertheless returns 0, empties the pending list, and links the session
into the active collection with `NULL` channel handles, raising the
kernel trace flag — because its loop tests the stale `err` of
`create_dirs` instead of the channel-creation result, its
`create_channel_error` rollback path is unreachable. -/
theorem trace_alloc_channel_failure_not_detected :
    (trace_alloc envChanFail "t1" stChanFail).1 = 0 ∧
    (trace_alloc envChanFail "t1" stChanFail).2.setup_head = [] ∧
    ((trace_alloc envChanFail "t1" stChanFail).2.head.map
      (fun t => t.channels)) = [[none, none]] ∧
    (trace_alloc envChanFail "t1" stChanFail).2.traceFlag = true := by
  decide

/-- C8 (code-bug evaluation): on the unsigned input
`subbuf_size = 2^31 + 1` (with `n_subbufs = 4`) the size rounding computes
`1 << 32`, which stored into the 32-bit variable is 0: the result is below
one page and not a power of two, contradicting the function's own
"Make sure the subbuffer size is larger than a page" clamp and its
`WARN_ON(hweight32(*subbuf_size) != 1)` assertion. -/
theorem prepare_chan_size_overflow :
    prepare_chan_size_num 2147483649 4 = (0, 4) ∧
    (prepare_chan_size_num 2147483649 4).1 < PAGE_SIZE ∧
    (∀ k : Nat, (prepare_chan_size_num 2147483649 4).1 ≠ 2 ^ k) := by
  refine ⟨by decide, by decide, ?_⟩
  intro k
  have h : prepare_chan_size_num 2147483649 4 = (0, 4) := by decide
  rw [h]
  exact Ne.symm (Nat.pos_iff_ne_zero.mp (pow_pos (by norm_num) k))

/-- C3: the fresh session record built by `_ltt_trace_setup` has the
metadata channel's overwrite flag 0; a nonzero overwrite request for
`"metadata"` on a pending session fails `-EINVAL` leaving the registry
unchanged; and in every reachable registry state, every session in either
collection has the metadata overwrite flag 0. -/
theorem metadata_overwrite_always_false (env : Env) (st : TracesState)
    (name : String) (v : Nat) (hv : v ≠ 0)
    (hpend : (trace_find_setup st name).isSome) (hr : Reachable env st) :
    metaOk env (newTrace env name) ∧
    trace_set_channel_overwrite env name "metadata" v st = (-EINVAL, st) ∧
    (∀ t, t ∈ st.setup_head ∨ t ∈ st.head → metaOk env t) := by
  refine ⟨metaOk_newTrace env name, ?_, ?_⟩
  · obtain ⟨t, ht⟩ := Option.isSome_iff_exists.mp hpend
    unfold trace_set_channel_overwrite
    simp only [ht]
    simp [hv]
  · intro t htm
    have hinv := inv_reachable hr
    rcases htm with htm | htm
    · exact hinv.2.2.1 t htm
    · exact hinv.2.2.2 t htm

/-- C3 witness: concretely, the fresh `"t1"` record has metadata overwrite
0 and requesting overwrite 1 on its metadata channel while it is pending
fails `-EINVAL` without touching the registry. -/
theorem metadata_overwrite_always_false_case :
    metaOk envW (newTrace envW "t1") ∧
    trace_set_channel_overwrite envW "t1" "metadata" 1 stPend =
      (-EINVAL, stPend) := by
  have h := metadata_overwrite_always_false envW stPend "t1" 1 (by decide)
    (by decide) (Reachable.step (Op.setup "t1") Reachable.init)
  exact ⟨h.1, h.2.1⟩

/-- C4 counterexample: with `"t1"` pending and transports
`["relay", "net"]` registered, `ltt_trace_set_type` on the unresolved
transport name `"bogus"` returns `-EINVAL` (InvalidArgument), not the
`-ENOENT` (NotFound) the claim asserts. -/
theorem set_type_unknown_transport_not_enoent :
    trace_set_type envW "t1" "bogus" stPend = (-EINVAL, stPend) ∧
    (-EINVAL : Int) ≠ -ENOENT := by
  decide

/-- C4 (amended): set_transport applies only to a pending session; an
unknown session name fails `-ENOENT`, an unresolved transport name fails
`-EINVAL`, and on either failure the registry — the session's transport
assignment included — is unchanged. -/
theorem set_type_failure_modes (env : Env) (name ttype : String)
    (st : TracesState) :
    (trace_find_setup st name = none →
      trace_set_type env name ttype st = (-ENOENT, st)) ∧
    ((trace_find_setup st name).isSome →
      env.transports.find? (fun tr => tr = ttype) = none →
      trace_set_type env name ttype st = (-EINVAL, st)) := by
  constructor
  · intro h
    unfold trace_set_type
    simp only [h]
  · intro h1 h2
    obtain ⟨t, ht⟩ := Option.isSome_iff_exists.mp h1
    unfold trace_set_type
    simp only [ht, h2]

/-- C4 witness: an unknown session name fails `-ENOENT`; a pending session
with an unknown transport name fails `-EINVAL`; both leave the state as it
was. -/
theorem set_type_failure_modes_case :
    trace_set_type envW "zzz" "relay" stPend = (-ENOENT, stPend) ∧
    trace_set_type envW "t1" "bad" stPend = (-EINVAL, stPend) := by
  have h1 := set_type_failure_modes envW "zzz" "relay" stPend
  have h2 := set_type_failure_modes envW "t1" "bad" stPend
  exact ⟨h1.1 (by decide), h2.2 (by decide) (by decide)⟩

/-- C5 counterexample: allocate on the pending `"t1"` with no transport
set fails `-EINVAL` and the session stays pending, but its record is not
the same: `kref_init` raised the reference count from 0 to 1 and the
frequency scale was latched from the trace clock (0 became 7), so the
resulting state differs from the original. -/
theorem alloc_no_transport_mutates_fields :
    (trace_alloc envW "t1" stPend).1 = -EINVAL ∧
    stPend.setup_head.map (fun t => t.kref) = [0] ∧
    (trace_alloc envW "t1" stPend).2.setup_head.map (fun t => t.kref) = [1] ∧
    stPend.setup_head.map (fun t => t.freq_scale) = [0] ∧
    (trace_alloc envW "t1" stPend).2.setup_head.map
      (fun t => t.freq_scale) = [7] ∧
    (trace_alloc envW "t1" stPend).2 ≠ stPend := by
  decide

/-- C5 (amended): allocate on a pending session whose transport is unset
fails `-EINVAL`; the active collection is untouched and the session stays
in the pending collection with its name, settings, transport and channel
handles unchanged — but not every field: before the check the code
re-initializes the reference count to 1, (re)clears the active flag and
latches the frequency scale from the trace clock. -/
theorem alloc_no_transport_stays_pending (env : Env) (name : String)
    (st : TracesState) (t : LttTrace)
    (hfind : trace_find_setup st name = some t) (ht : t.transport = none) :
    (trace_alloc env name st).1 = -EINVAL ∧
    (trace_alloc env name st).2.head = st.head ∧
    trace_find_setup (trace_alloc env name st).2 name =
      some (allocTouch env t) ∧
    (allocTouch env t).trace_name = t.trace_name ∧
    (allocTouch env t).settings = t.settings ∧
    (allocTouch env t).transport = t.transport ∧
    (allocTouch env t).channels = t.channels ∧
    (allocTouch env t).kref = 1 ∧
    (allocTouch env t).active = false ∧
    (allocTouch env t).freq_scale = env.freq_scale := by
  have hupd : trace_find_setup (allocTouchState env name st) name =
      some (allocTouch env t) := by
    show findTrace name
      (updateFirst name (fun u => allocTouch env u) st.setup_head) = _
    rw [findTrace_updateFirst (f := fun u => allocTouch env u) (fun _ => rfl)]
    rw [show findTrace name st.setup_head = some t from hfind]
    rfl
  have hcall : trace_alloc env name st =
      (-EINVAL, allocTouchState env name st) := by
    unfold trace_alloc
    simp only [hfind, ht]
  refine ⟨?_, ?_, ?_, rfl, rfl, rfl, rfl, rfl, rfl, rfl⟩
  · rw [hcall]
  · rw [hcall]
    exact rfl
  · rw [hcall]
    exact hupd

/-- C5 witness: the amended statement at the concrete pending `"t1"`. -/
theorem alloc_no_transport_stays_pending_case :
    (trace_alloc envW "t1" stPend).1 = -EINVAL ∧
    trace_find_setup (trace_alloc envW "t1" stPend).2 "t1" =
      some (allocTouch envW (newTrace envW "t1")) := by
  have h := alloc_no_transport_stays_pending envW "t1" stPend
    (newTrace envW "t1") (by decide) (by decide)
  exact ⟨h.1, h.2.2.1⟩

/-- C6: destroying an active-collection session whose capture flag is on
fails `-EBUSY` with the registry unchanged (the session stays in the
active collection); stopping that session returns 0, and destroying it
afterwards returns 0 and leaves the name resolvable in neither the
pending nor the active collection. -/
theorem destroy_busy_then_stop_destroy (env : Env) (st : TracesState)
    (name : String) (hr : Reachable env st)
    (hact : (trace_find st name).map (fun t => t.active) = some true) :
    trace_destroy name st = (-EBUSY, st) ∧
    (trace_stop env name st).1 = 0 ∧
    (trace_destroy name (trace_stop env name st).2).1 = 0 ∧
    trace_find (trace_destroy name (trace_stop env name st).2).2 name =
      none ∧
    trace_find_setup (trace_destroy name (trace_stop env name st).2).2 name =
      none := by
  obtain ⟨t, hf, htact⟩ :
      ∃ t, trace_find st name = some t ∧ t.active = true := by
    cases hfo : trace_find st name with
    | none => rw [hfo] at hact; simp at hact
    | some u =>
      rw [hfo] at hact
      simp only [Option.map_some'] at hact
      exact ⟨u, rfl, Option.some_injective _ hact⟩
  have hinv := inv_reachable hr
  have hnd : (names st.setup_head ++ names st.head).Nodup := hinv.1
  have hndh : (names st.head).Nodup := (List.nodup_append.mp hnd).2.1
  have hdisj : List.Disjoint (names st.setup_head) (names st.head) :=
    (List.nodup_append.mp hnd).2.2
  have hnmem : name ∈ names st.head :=
    (findTrace_some_name hf) ▸
      List.mem_map_of_mem (fun u => u.trace_name) (findTrace_some_mem hf)
  have hnsetup : name ∉ names st.setup_head := fun hc => hdisj hc hnmem
  have hbusy : trace_destroy name st = (-EBUSY, st) := by
    unfold trace_destroy
    simp only [hf, htact, if_true]
  have hstop : trace_stop env name st =
      (0, { st with
              head := updateFirst name (fun u => { u with active := false })
                st.head
              num_active_traces := st.num_active_traces - 1
              filterPins := st.filterPins -
                (if env.filterOwner then 1 else 0) }) := by
    unfold trace_stop
    simp only [hf, htact, if_true]
  have hf2 : trace_find (trace_stop env name st).2 name =
      some { t with active := false } := by
    rw [hstop]
    show findTrace name
      (updateFirst name (fun u => { u with active := false }) st.head) = _
    rw [findTrace_updateFirst
      (f := fun u => { u with active := false }) (fun _ => rfl)]
    rw [show findTrace name st.head = some t from hf]
    rfl
  have hdes : trace_destroy name (trace_stop env name st).2 =
      (0, { (trace_stop env name st).2 with
              head := removeFirst name (trace_stop env name st).2.head
              traceFlag :=
                if (removeFirst name (trace_stop env name st).2.head).isEmpty
                then false else (trace_stop env name st).2.traceFlag }) := by
    unfold trace_destroy
    simp only [hf2]
    rw [if_neg Bool.false_ne_true]
  have hheads : (trace_stop env name st).2.head =
      updateFirst name (fun u => { u with active := false }) st.head := by
    rw [hstop]
  refine ⟨hbusy, by rw [hstop], by rw [hdes], ?_, ?_⟩
  · rw [hdes]
    show findTrace name
      (removeFirst name (trace_stop env name st).2.head) = none
    refine findTrace_eq_none_iff.mpr ?_
    refine not_mem_names_removeFirst ?_
    rw [hheads, names_updateFirst (f := fun u => { u with active := false })
      (fun _ => rfl)]
    exact hndh
  · rw [hdes]
    show findTrace name (trace_stop env name st).2.setup_head = none
    rw [show (trace_stop env name st).2.setup_head = st.setup_head
      from by rw [hstop]]
    exact findTrace_eq_none_iff.mpr hnsetup

/-- C6 witness: the started `"t1"` refuses destroy with `-EBUSY`; after a
stop, destroy succeeds and `"t1"` resolves in neither collection. -/
theorem destroy_busy_then_stop_destroy_case :
    trace_destroy "t1" stStarted = (-EBUSY, stStarted) ∧
    (trace_destroy "t1" (trace_stop envW "t1" stStarted).2).1 = 0 ∧
    trace_find (trace_destroy "t1" (trace_stop envW "t1" stStarted).2).2
      "t1" = none ∧
    trace_find_setup
      (trace_destroy "t1" (trace_stop envW "t1" stStarted).2).2 "t1" =
      none := by
  have h := destroy_busy_then_stop_destroy envW stStarted "t1"
    (Reachable.step (Op.start "t1") (Reachable.step (Op.alloc "t1")
      (Reachable.step (Op.setType "t1" "relay")
        (Reachable.step (Op.setup "t1") Reachable.init))))
    (by decide)
  exact ⟨h.1, h.2.2.1, h.2.2.2.1, h.2.2.2.2⟩

/-- C7: in every reachable registry state the process-wide kernel trace
flag is up exactly when the active collection is non-empty; hence a
successful allocate (which links the session into the active collection,
raising the flag when the collection was empty) leaves it up, and a
successful destroy that empties the active collection leaves it down. -/
theorem trace_flag_tracks_active (env : Env) (st : TracesState)
    (hr : Reachable env st) :
    (st.traceFlag = true ↔ st.head ≠ []) ∧
    (∀ name, (trace_alloc env name st).1 = 0 →
      (trace_alloc env name st).2.traceFlag = true) ∧
    (∀ name, (trace_destroy name st).1 = 0 →
      (trace_destroy name st).2.head = [] →
      (trace_destroy name st).2.traceFlag = false) := by
  have hfl := (inv_reachable hr).2.1
  rw [FlagOk] at hfl
  refine ⟨?_, ?_, ?_⟩
  · cases hhd : st.head with
    | nil => rw [hhd] at hfl; simp [hfl, hhd]
    | cons a l => rw [hhd] at hfl; simp [hfl, hhd]
  · intro name h0
    revert h0
    unfold trace_alloc
    split
    · intro h0; exact absurd h0 (show ¬((-ENOENT : Int) = 0) by decide)
    · split
      · intro h0; exact absurd h0 (show ¬((-EINVAL : Int) = 0) by decide)
      · split
        · intro h0; exact absurd h0 (show ¬((-ENODEV : Int) = 0) by decide)
        · split
          · rename_i hderr
            intro h0
            exact absurd h0 hderr
          · intro _
            exact flag_raise (inv_reachable hr).2.1
  · intro name h0 hhd
    revert h0 hhd
    unfold trace_destroy
    split
    · split
      · intro h0; exact absurd h0 (show ¬((-EBUSY : Int) = 0) by decide)
      · intro _ hhd
        have hre : removeFirst name st.head = [] := hhd
        show (if (removeFirst name st.head).isEmpty then false
          else st.traceFlag) = false
        rw [if_pos (by rw [hre]; rfl)]
    · split
      · intro _ hhd
        have hre : st.head = [] := hhd
        show st.traceFlag = false
        rw [hfl, hre]
        rfl
      · intro h0; exact absurd h0 (show ¬((-ENOENT : Int) = 0) by decide)

/-- C7 witness: concretely, allocating `"t1"` raises the flag, and
destroying it (the only active session) after a stop drops the flag. -/
theorem trace_flag_tracks_active_case :
    stAlloc.traceFlag = true ∧
    (trace_destroy "t1" (trace_stop envW "t1" stStarted).2).2.traceFlag =
      false := by
  have h1 := trace_flag_tracks_active envW stTyped
    (Reachable.step (Op.setType "t1" "relay")
      (Reachable.step (Op.setup "t1") Reachable.init))
  have h2 := trace_flag_tracks_active envW (trace_stop envW "t1" stStarted).2
    (Reachable.step (Op.stop "t1") (Reachable.step (Op.start "t1")
      (Reachable.step (Op.alloc "t1") (Reachable.step (Op.setType "t1" "relay")
        (Reachable.step (Op.setup "t1") Reachable.init)))))
  exact ⟨h1.2.1 "t1" (by decide), h2.2.2 "t1" (by decide) (by decide)⟩

/-- C9 counterexample: `"t1"` is pending with transport `"relay"`
assigned; a second `ltt_trace_set_type` naming the also-registered
transport `"net"` succeeds and replaces the assignment — the transport is
not set-once. -/
theorem set_type_replaces_transport :
    stTyped.setup_head.map (fun t => t.transport) = [some "relay"] ∧
    (trace_set_type envW "t1" "net" stTyped).1 = 0 ∧
    (trace_set_type envW "t1" "net" stTyped).2.setup_head.map
      (fun t => t.transport) = [some "net"] := by
  decide

/-- C9 (amended): the transport assignment is last-write-wins: whenever
the session is pending and the transport name resolves, `set_type`
succeeds and the session's transport becomes the transport just resolved,
whatever was assigned before. -/
theorem set_type_last_write_wins (env : Env) (name ttype : String)
    (st : TracesState) (tr : String)
    (hpend : (trace_find_setup st name).isSome)
    (htr : env.transports.find? (fun s => s = ttype) = some tr) :
    (trace_set_type env name ttype st).1 = 0 ∧
    (trace_find_setup (trace_set_type env name ttype st).2 name).map
      (fun t => t.transport) = some (some tr) := by
  obtain ⟨t, ht⟩ := Option.isSome_iff_exists.mp hpend
  have hcall : trace_set_type env name ttype st =
      (0, { st with setup_head := updateFirst name (fun u => { u with transport := some tr }) st.setup_head }) := by
    unfold trace_set_type
    simp only [ht, htr]
  refine ⟨by rw [hcall], ?_⟩
  rw [hcall]
  show (findTrace name (updateFirst name
    (fun u => { u with transport := some tr }) st.setup_head)).map
      (fun u => u.transport) = some (some tr)
  rw [findTrace_updateFirst
    (f := fun u => { u with transport := some tr }) (fun _ => rfl)]
  rw [show findTrace name st.setup_head = some t from ht]
  rfl

/-- C9 witness: replacing `"relay"` by `"net"` on the concrete pending
`"t1"` succeeds and the stored transport is `"net"`. -/
theorem set_type_last_write_wins_case :
    (trace_set_type envW "t1" "net" stTyped).1 = 0 ∧
    (trace_find_setup (trace_set_type envW "t1" "net" stTyped).2 "t1").map
      (fun t => t.transport) = some (some "net") :=
  set_type_last_write_wins envW "t1" "net" stTyped "net"
    (by decide) (by decide)

/-- k successive `ltt_trace_start` calls on the same name. -/
def iterStart (env : Env) (name : String) : Nat → TracesState → TracesState
  | 0, st => st
  | k + 1, st => iterStart env name k (trace_start env name st).2

theorem updateFirst_setActive_of_active {name : String} :
    ∀ {l : List LttTrace},
    (findTrace name l).map (fun t => t.active) = some true →
    updateFirst name (fun t => { t with active := true }) l = l
  | [], _ => rfl
  | t :: l, h => by
    by_cases ht : t.trace_name = name
    · rw [findTrace, if_pos ht] at h
      simp only [Option.map_some'] at h
      have hact : t.active = true := Option.some_injective _ h
      rw [updateFirst, if_pos ht]
      cases t
      simp only at hact
      rw [hact]
    · rw [findTrace, if_neg ht] at h
      rw [updateFirst, if_neg ht, updateFirst_setActive_of_active h]

theorem trace_start_active_eq (env : Env) (name : String) (st : TracesState)
    (hown : env.filterOwner = true) (halive : env.filterAlive = true)
    (hact : (trace_find st name).map (fun t => t.active) = some true) :
    trace_start env name st =
      (0, { st with
              num_active_traces := st.num_active_traces + 1
              filterPins := st.filterPins + 1 }) := by
  obtain ⟨t, ht⟩ : ∃ t, trace_find st name = some t := by
    cases hfo : trace_find st name with
    | none => rw [hfo] at hact; simp at hact
    | some u => exact ⟨u, rfl⟩
  unfold trace_start
  simp only [ht]
  rw [if_neg (by rw [halive]; exact fun hc => hc.2 rfl)]
  rw [show updateFirst name (fun u => { u with active := true }) st.head =
    st.head from updateFirst_setActive_of_active hact]
  rw [hown]
  exact rfl

theorem iterStart_counts (env : Env) (name : String)
    (hown : env.filterOwner = true) (halive : env.filterAlive = true) :
    ∀ (k : Nat) (st : TracesState),
    (trace_find st name).map (fun t => t.active) = some true →
    (iterStart env name k st).num_active_traces =
      st.num_active_traces + k ∧
    (iterStart env name k st).head = st.head ∧
    (iterStart env name k st).filterPins = st.filterPins + k
  | 0, st, _ => ⟨rfl, rfl, rfl⟩
  | k + 1, st, hact => by
    have hq := trace_start_active_eq env name st hown halive hact
    have hact' : (trace_find (trace_start env name st).2 name).map
        (fun t => t.active) = some true := by
      rw [hq]
      exact hact
    have ih := iterStart_counts env name hown halive k
      (trace_start env name st).2 hact'
    show (iterStart env name k (trace_start env name st).2).num_active_traces
        = st.num_active_traces + (k + 1) ∧
      (iterStart env name k (trace_start env name st).2).head = st.head ∧
      (iterStart env name k (trace_start env name st).2).filterPins
        = st.filterPins + (k + 1)
    refine ⟨?_, ?_, ?_⟩
    · rw [ih.1, hq]
      show st.num_active_traces + 1 + k = st.num_active_traces + (k + 1)
      omega
    · rw [ih.2.1, hq]
    · rw [ih.2.2, hq]
      show st.filterPins + 1 + k = st.filterPins + (k + 1)
      omega

/-- C10: calling start on a session whose capture flag is already on
succeeds again: the result is 0, the active collection (flags included) is
unchanged, the run-filter module is pinned once more and the process-wide
active-session counter is incremented once more; iterating k such starts
adds k to the counter and to the pin count while the collection stays
fixed, so the counter can exceed the number of sessions whose active flag
is on. -/
theorem start_already_active_increments_again (env : Env)
    (st : TracesState) (name : String) (k : Nat)
    (hown : env.filterOwner = true) (halive : env.filterAlive = true)
    (hact : (trace_find st name).map (fun t => t.active) = some true) :
    (trace_start env name st).1 = 0 ∧
    (trace_start env name st).2.head = st.head ∧
    (trace_start env name st).2.num_active_traces =
      st.num_active_traces + 1 ∧
    (trace_start env name st).2.filterPins = st.filterPins + 1 ∧
    (iterStart env name k st).num_active_traces =
      st.num_active_traces + k ∧
    (iterStart env name k st).head = st.head ∧
    (iterStart env name k st).filterPins = st.filterPins + k := by
  have hq := trace_start_active_eq env name st hown halive hact
  have hit := iterStart_counts env name hown halive k st hact
  exact ⟨by rw [hq], by rw [hq], by rw [hq], by rw [hq],
    hit.1, hit.2.1, hit.2.2⟩

/-- C10 witness: on the started `"t1"` (counter 1, one active session),
two further starts return 0 each, leave the single session in place, and
drive the counter to 3 — exceeding the one session whose flag is on. -/
theorem start_already_active_increments_again_case :
    (trace_start envW "t1" stStarted).1 = 0 ∧
    (iterStart envW "t1" 2 stStarted).num_active_traces = 3 ∧
    (iterStart envW "t1" 2 stStarted).head.length = 1 ∧
    stStarted.num_active_traces = 1 := by
  have h := start_already_active_increments_again envW stStarted "t1" 2
    rfl rfl (by decide)
  refine ⟨h.1, ?_, ?_, by decide⟩
  · rw [h.2.2.2.2.1]
    decide
  · rw [h.2.2.2.2.2.1]
    decide

end LttTracer
